import Mathlib

/-!
Verification of the duplicate-safe view-count / derived-statistics subsystem
of the ElfNovel reading-platform backend.

The definitions below are a shallow embedding of the JavaScript source:

* `src/src/models/chapterViewRecord.js` (second segment of `src/src/models/folder.js`
  in this source drop): the `ChapterViewRecord` schema, its unique indexes and the
  static `recordView` (dedup check-and-record).
* `src/src/models/novel.js` (third segment of `folder.js`): `updateWordCount`
  and `updateReadersCount`.
* `src/src/models/chapter.js` (second segment of `src/src/models/index.js`):
  the chapter schema `pre('save')`, `post('save')`, `pre/post('findOneAndDelete')`
  and `post('deleteMany')` hooks.
* `src/src/controllers/authorController.js`: `createChapter`, `updateChapter`.
* `src/src/controllers/novelController.js`: `fixNovelStats`.

The MongoDB document store is modelled as a `List` of records; `Date.now()`
values are abstract `Int` milliseconds; MongoDB ObjectIds are `Nat`.
An absent / JS-falsy identity field is modelled as `Option.none`.
-/

namespace ElfNovel

/-! ## View dedup store (chapterViewRecord.js) -/

/-- The identity options passed to `ChapterViewRecord.recordView(chapterId, options)`:
`{ userId, clientId, ipAddress }`, each possibly absent. -/
structure ViewOptions where
  userId : Option Nat
  clientId : Option String
  ipAddress : Option String
deriving DecidableEq

/-- One document of the `ChapterViewRecord` collection: chapter reference,
optional user reference, optional client token, optional IP, and the
`viewedAt` timestamp (milliseconds). Schema defaults `user`, `clientId`
and `ipAddress` to null. -/
structure ViewRecord where
  chapter : Nat
  user : Option Nat
  clientId : Option String
  ipAddress : Option String
  viewedAt : Int
deriving DecidableEq

/-- A MongoDB equality query over `ChapterViewRecord`. The outer `Option` on a
field means the field does not occur in the query (unconstrained); an inner
value is the required field value (possibly null). -/
structure DedupQuery where
  chapter : Nat
  user : Option (Option Nat)
  clientId : Option (Option String)
  ipAddress : Option (Option String)
deriving DecidableEq

/-- The dedup window: 24 hours in milliseconds. `recordView` computes
`hoursDiff = (now - recordTime) / (1000*60*60)` and tests `hoursDiff >= 24`,
which over the reals is equivalent to `now - recordTime >= 86400000`. -/
def windowMs : Int := 86400000

/-- The query built by `recordView` (chapterViewRecord.js lines 203-226):
prefer `userId`; else require both `clientId` and `ipAddress`; else fall back
to `ipAddress` alone; else no counting is possible (`none`). -/
def buildQuery (c : Nat) (o : ViewOptions) : Option DedupQuery :=
  match o.userId with
  | some u => some { chapter := c, user := some (some u), clientId := none, ipAddress := none }
  | none =>
    match o.clientId, o.ipAddress with
    | some cid, some ip =>
      some { chapter := c, user := some none, clientId := some (some cid),
             ipAddress := some (some ip) }
    | _, _ =>
      match o.ipAddress with
      | some ip =>
        some { chapter := c, user := some none, clientId := some none,
               ipAddress := some (some ip) }
      | none => none

/-- MongoDB equality-query matching: every field that occurs in the query must
be equal on the document. -/
def matchesQuery (q : DedupQuery) (r : ViewRecord) : Bool :=
  r.chapter == q.chapter &&
  (match q.user with | none => true | some v => r.user == v) &&
  (match q.clientId with | none => true | some v => r.clientId == v) &&
  (match q.ipAddress with | none => true | some v => r.ipAddress == v)

/-- `Model.findOne(query)`: the first document matching the query. -/
def findOne (q : DedupQuery) (store : List ViewRecord) : Option ViewRecord :=
  store.find? (matchesQuery q)

/-- The `recordData` document built by `recordView` (lines 255-268): chapter and
current time; for a logged-in user only `user` is set (the other identity
fields keep their null schema default), otherwise `user` is null and
`clientId` / `ipAddress` are copied (null when absent). -/
def newRecord (c : Nat) (o : ViewOptions) (now : Int) : ViewRecord :=
  match o.userId with
  | some u => { chapter := c, user := some u, clientId := none, ipAddress := none,
                viewedAt := now }
  | none => { chapter := c, user := none, clientId := o.clientId,
              ipAddress := o.ipAddress, viewedAt := now }

/-- The two unique indexes of the schema (chapterViewRecord.js lines 157-177):
`{chapter, user}` restricted to documents with non-null `user`, and
`{chapter, clientId, ipAddress}` restricted to documents with null `user` and
non-null `clientId` and `ipAddress`. Two documents clash when both fall in the
same index and agree on its keys. -/
def uniqueKeyClash (a b : ViewRecord) : Bool :=
  (a.user.isSome && b.user.isSome && a.chapter == b.chapter && a.user == b.user) ||
  (a.user == none && b.user == none &&
   a.clientId.isSome && b.clientId.isSome &&
   a.ipAddress.isSome && b.ipAddress.isSome &&
   a.chapter == b.chapter && a.clientId == b.clientId && a.ipAddress == b.ipAddress)

/-- Whether inserting `r` into `store` violates one of the unique indexes. -/
def insertConflicts (r : ViewRecord) (store : List ViewRecord) : Bool :=
  store.any (fun s => uniqueKeyClash r s)

/-- `document.save()` after mutating a fetched document: replace the first
occurrence of the fetched document by its updated version. -/
def replaceFirst : List ViewRecord → ViewRecord → ViewRecord → List ViewRecord
  | [], _, _ => []
  | x :: xs, old, upd => if x = old then upd :: xs else x :: replaceFirst xs old upd

/-- Fault-injection flags for the persistence layer: `findFails` makes the
`findOne` lookup throw, `insertFails` makes `create` throw (for example a
duplicate-key error lost to a concurrent insert), `saveFails` makes the
refresh `save()` throw. -/
structure DbFaults where
  findFails : Bool
  insertFails : Bool
  saveFails : Bool
deriving DecidableEq

/-- All persistence calls succeed. -/
def noFaults : DbFaults := ⟨false, false, false⟩

/-- `ChapterViewRecord.recordView(chapterId, options)` (chapterViewRecord.js
lines 186-285), with persistence faults made explicit. Returns the boolean the
caller receives together with the resulting store. An invalid / missing
chapter id is `chapterId = none`. Every thrown persistence error is caught by
the function and turned into `false`; the store is unchanged on any failure. -/
def recordViewWith (f : DbFaults) (store : List ViewRecord) (chapterId : Option Nat)
    (o : ViewOptions) (now : Int) : Bool × List ViewRecord :=
  match chapterId with
  | none => (false, store)
  | some c =>
    match buildQuery c o with
    | none => (false, store)
    | some q =>
      if f.findFails then (false, store)
      else
        match findOne q store with
        | some r =>
          if windowMs ≤ now - r.viewedAt then
            if f.saveFails then (false, store)
            else (true, replaceFirst store r { r with viewedAt := now })
          else (false, store)
        | none =>
          let nr := newRecord c o now
          if f.insertFails || insertConflicts nr store then (false, store)
          else (true, store ++ [nr])

/-- `recordView` on a healthy persistence layer. -/
def recordView (store : List ViewRecord) (chapterId : Option Nat) (o : ViewOptions)
    (now : Int) : Bool × List ViewRecord :=
  recordViewWith noFaults store chapterId o now

/-! ### Supporting lemmas for the dedup store -/

/-- The record freshly built for an identity matches the query built for the
same identity. -/
theorem newRecord_matches (c : Nat) (o : ViewOptions) (now : Int) (q : DedupQuery)
    (hq : buildQuery c o = some q) : matchesQuery q (newRecord c o now) = true := by
  unfold buildQuery at hq
  unfold newRecord matchesQuery
  rcases hu : o.userId with _ | u <;> rw [hu] at hq
  · rcases hc : o.clientId with _ | cid <;> rcases hi : o.ipAddress with _ | ip <;>
      simp [hu, hc, hi] at hq <;> subst hq <;> simp [hc, hi]
  · simp at hq
    subst hq
    simp

/-- If a document clashes with the fresh record on a unique index, it matches
the dedup query for that identity. -/
theorem clash_matches (c : Nat) (o : ViewOptions) (now : Int) (q : DedupQuery)
    (hq : buildQuery c o = some q) (s : ViewRecord)
    (h : uniqueKeyClash (newRecord c o now) s = true) : matchesQuery q s = true := by
  unfold buildQuery at hq
  unfold newRecord uniqueKeyClash at h
  unfold matchesQuery
  rcases hu : o.userId with _ | u <;> rw [hu] at hq h
  · rcases hc : o.clientId with _ | cid <;> rcases hi : o.ipAddress with _ | ip <;>
      simp [hc, hi] at hq h <;> subst hq <;> simp <;> aesop
  · simp at hq h
    subst hq
    simp [h.1, h.2]

/-- Conversely, for an identity covered by a unique index (a user id, or a
client token together with an IP address), any document matching the dedup
query clashes with the fresh record. The IP-only fallback identity is NOT
covered: its records have null `clientId`, so they fall outside both unique
indexes. -/
theorem matches_clash (c : Nat) (o : ViewOptions) (now : Int) (q : DedupQuery)
    (hq : buildQuery c o = some q)
    (hid : o.userId.isSome = true ∨ (o.clientId.isSome = true ∧ o.ipAddress.isSome = true))
    (s : ViewRecord) (h : matchesQuery q s = true) :
    uniqueKeyClash (newRecord c o now) s = true := by
  unfold buildQuery at hq
  unfold newRecord
  unfold matchesQuery at h
  unfold uniqueKeyClash
  rcases hu : o.userId with _ | u <;> rw [hu] at hq
  · rcases hc : o.clientId with _ | cid <;> rcases hi : o.ipAddress with _ | ip <;>
      simp [hu, hc, hi] at hq hid <;> subst hq <;> simp [hc, hi] at h ⊢ <;> aesop
  · simp at hq
    subst hq
    simp at h
    simp [h.1, h.2]

/-- If no record matches the dedup query, inserting the fresh record cannot
violate a unique index. -/
theorem findOne_none_no_clash (c : Nat) (o : ViewOptions) (now : Int) (q : DedupQuery)
    (hq : buildQuery c o = some q) (store : List ViewRecord)
    (hfind : findOne q store = none) :
    insertConflicts (newRecord c o now) store = false := by
  unfold findOne at hfind
  unfold insertConflicts
  rw [List.find?_eq_none] at hfind
  rw [List.any_eq_false]
  intro s hs
  intro hclash
  exact hfind s hs (clash_matches c o now q hq s hclash)

/-- Replacing one record preserves the number of records. -/
theorem replaceFirst_length (store : List ViewRecord) (old upd : ViewRecord) :
    (replaceFirst store old upd).length = store.length := by
  induction store with
  | nil => rfl
  | cons x xs ih =>
    unfold replaceFirst
    by_cases h : x = old <;> simp [h, ih]

/-! ### C1, C4, C10 -/

/-- C1: for a valid chapter id and a resolvable identity, `recordView` behaves
as the three-way window contract: no matching record means a fresh record
stamped `now` is inserted and the call returns true; a matching record younger
than the 24-hour window means false with the store unchanged; a matching record
at least 24 hours old means its timestamp is refreshed to `now` in place (no
new record is inserted) and the call returns true. -/
theorem recordView_dedup_window (store : List ViewRecord) (c : Nat) (o : ViewOptions)
    (now : Int) (q : DedupQuery) (hq : buildQuery c o = some q) :
    (findOne q store = none →
      recordView store (some c) o now = (true, store ++ [newRecord c o now])) ∧
    (∀ r, findOne q store = some r → now - r.viewedAt < windowMs →
      recordView store (some c) o now = (false, store)) ∧
    (∀ r, findOne q store = some r → windowMs ≤ now - r.viewedAt →
      recordView store (some c) o now = (true, replaceFirst store r { r with viewedAt := now }) ∧
      (replaceFirst store r { r with viewedAt := now }).length = store.length) := by
  refine ⟨?_, ?_, ?_⟩
  · intro hfind
    simp only [recordView, recordViewWith, hq, hfind]
    simp [noFaults, findOne_none_no_clash c o now q hq store hfind]
  · intro r hfind hyoung
    simp only [recordView, recordViewWith, hq, hfind]
    simp [noFaults, not_le.mpr hyoung]
  · intro r hfind hold
    constructor
    · simp only [recordView, recordViewWith, hq, hfind]
      simp [noFaults, hold]
    · exact replaceFirst_length store r { r with viewedAt := now }

/-- C1 witness: a concrete first view by user 5 of chapter 1 against an empty
store inserts a record and counts. -/
theorem recordView_dedup_window_witness :
    recordView [] (some 1) (ViewOptions.mk (some 5) none none) 0 =
      (true, [] ++ [newRecord 1 (ViewOptions.mk (some 5) none none) 0]) :=
  (recordView_dedup_window [] 1 (ViewOptions.mk (some 5) none none) 0
    (DedupQuery.mk 1 (some (some 5)) none none) (by decide)).1 (by decide)

/-- C4: `recordView` fails closed. If the lookup throws, the call returns false
with the store unchanged; if the insert of a new dedup record throws (for
example losing a concurrent duplicate-insert race), the call likewise returns
false with the store unchanged. No error ever reaches the caller (the model
function is total and returns a boolean in every branch). -/
theorem recordView_fail_closed (f : DbFaults) (store : List ViewRecord) (c : Nat)
    (o : ViewOptions) (now : Int) (q : DedupQuery) (hq : buildQuery c o = some q) :
    (f.findFails = true → recordViewWith f store (some c) o now = (false, store)) ∧
    (f.insertFails = true → findOne q store = none →
      recordViewWith f store (some c) o now = (false, store)) := by
  constructor
  · intro hf
    simp only [recordViewWith, hq]
    simp [hf]
  · intro hf hfind
    simp only [recordViewWith, hq]
    rcases hff : f.findFails
    · simp only [hfind]
      simp [hf, hff]
    · simp [hff]

/-- C4 witness: with a throwing store both failure modes of a concrete call
return false and leave the store unchanged. -/
theorem recordView_fail_closed_witness :
    (recordViewWith ⟨true, false, false⟩ [] (some 1) (ViewOptions.mk (some 5) none none) 0 =
      (false, []) ) ∧
    (recordViewWith ⟨false, true, false⟩ [] (some 1) (ViewOptions.mk (some 5) none none) 0 =
      (false, []) ) :=
  ⟨(recordView_fail_closed ⟨true, false, false⟩ [] 1 (ViewOptions.mk (some 5) none none) 0
      (DedupQuery.mk 1 (some (some 5)) none none) (by decide)).1 rfl,
   (recordView_fail_closed ⟨false, true, false⟩ [] 1 (ViewOptions.mk (some 5) none none) 0
      (DedupQuery.mk 1 (some (some 5)) none none) (by decide)).2 rfl (by decide)⟩

/-- C10: a call with an invalid or missing chapter id, or with an options
object supplying no user id, no client token and no IP address, returns false
and leaves the dedup store unchanged, so no view is counted for it. -/
theorem recordView_rejects_invalid (store : List ViewRecord) (now : Int) :
    (∀ o : ViewOptions, recordView store none o now = (false, store)) ∧
    (∀ c : Nat, recordView store (some c) (ViewOptions.mk none none none) now =
      (false, store)) := by
  constructor
  · intro o
    rfl
  · intro c
    rfl

/-! ## Chapters, novels and derived aggregates (chapter.js, novel.js) -/

/-- A `Chapter` document (chapter.js lines 48-117): owning novel reference,
title, body text, sequence number (`chapterNumber`), derived word count,
view count, extra / premium flags and price. -/
structure Chapter where
  id : Nat
  novel : Nat
  title : String
  content : String
  chapterNumber : Int
  wordCount : Nat
  viewCount : Nat
  isExtra : Bool
  isPremium : Bool
  price : Int
deriving DecidableEq

/-- The aggregate-bearing part of a `Novel` document (novel.js lines 297-421):
status string, the three derived fields and the latest-chapter pointer. -/
structure Novel where
  id : Nat
  status : String
  wordCount : Nat
  totalChapters : Nat
  readers : Nat
  latestChapter : Option Nat
deriving DecidableEq

/-- `Chapter.find({ novel: novelId })`: the live chapter set of a novel. -/
def novelChapters (nid : Nat) (cs : List Chapter) : List Chapter :=
  cs.filter (fun c => c.novel == nid)

/-- `novelSchema.methods.updateWordCount` (novel.js lines 449-495): load the
novel's chapters, sum `chapter.wordCount || 0` with a running accumulator and
persist the sum and the chapter count on the novel. -/
def updateWordCount (n : Novel) (cs : List Chapter) : Novel :=
  let live := novelChapters n.id cs
  { n with wordCount := live.foldl (fun acc c => acc + c.wordCount) 0,
           totalChapters := live.length }

/-- `novelSchema.methods.updateReadersCount` (novel.js lines 498-537): load the
novel's chapters, sum `chapter.viewCount || 0` and persist it as `readers`. -/
def updateReadersCount (n : Novel) (cs : List Chapter) : Novel :=
  let live := novelChapters n.id cs
  { n with readers := live.foldl (fun acc c => acc + c.viewCount) 0 }

theorem foldl_add_eq_sum (f : Chapter → Nat) (l : List Chapter) :
    l.foldl (fun acc c => acc + f c) 0 = (l.map f).sum := by
  rw [List.sum_eq_foldl, List.foldl_map]

/-- C2: after `updateWordCount` followed by `updateReadersCount`, the novel's
persisted `wordCount` is the sum of its live chapters' word counts,
`totalChapters` is their number and `readers` is the sum of their view counts;
with zero live chapters all three fields are 0. -/
theorem recompute_aggregates (n : Novel) (cs : List Chapter) :
    (updateReadersCount (updateWordCount n cs) cs).wordCount =
      ((novelChapters n.id cs).map (fun c => c.wordCount)).sum ∧
    (updateReadersCount (updateWordCount n cs) cs).totalChapters =
      (novelChapters n.id cs).length ∧
    (updateReadersCount (updateWordCount n cs) cs).readers =
      ((novelChapters n.id cs).map (fun c => c.viewCount)).sum ∧
    (novelChapters n.id cs = [] →
      (updateReadersCount (updateWordCount n cs) cs).wordCount = 0 ∧
      (updateReadersCount (updateWordCount n cs) cs).totalChapters = 0 ∧
      (updateReadersCount (updateWordCount n cs) cs).readers = 0) := by
  have hid : (updateWordCount n cs).id = n.id := rfl
  refine ⟨?_, ?_, ?_, ?_⟩
  · show (updateWordCount n cs).wordCount = _
    simp only [updateWordCount]
    exact foldl_add_eq_sum (fun c => c.wordCount) _
  · rfl
  · simp only [updateReadersCount, hid]
    exact foldl_add_eq_sum (fun c => c.viewCount) _
  · intro hlive
    refine ⟨?_, ?_, ?_⟩
    · show (updateWordCount n cs).wordCount = 0
      simp only [updateWordCount, hlive]
      rfl
    · show (novelChapters n.id cs).length = 0
      rw [hlive]
      rfl
    · simp only [updateReadersCount, hid, hlive]
      rfl

/-- C2 witness: a concrete novel with two live chapters (and one chapter of a
different novel) gets word count 7+5, chapter count 2 and readers 10+3, and a
concrete novel with no chapters gets all three aggregates 0. -/
theorem recompute_aggregates_witness :
    (updateReadersCount (updateWordCount (Novel.mk 1 "连载中" 99 99 99 none)
        [Chapter.mk 11 1 "a" "aaa" 1 7 10 false false 0,
         Chapter.mk 12 1 "b" "bb" 2 5 3 false false 0,
         Chapter.mk 13 2 "c" "cc" 1 100 100 false false 0])
        [Chapter.mk 11 1 "a" "aaa" 1 7 10 false false 0,
         Chapter.mk 12 1 "b" "bb" 2 5 3 false false 0,
         Chapter.mk 13 2 "c" "cc" 1 100 100 false false 0]).wordCount = 12 ∧
    (updateReadersCount (updateWordCount (Novel.mk 3 "连载中" 99 99 99 none) [])
        []).wordCount = 0 ∧
    (updateReadersCount (updateWordCount (Novel.mk 3 "连载中" 99 99 99 none) [])
        []).totalChapters = 0 ∧
    (updateReadersCount (updateWordCount (Novel.mk 3 "连载中" 99 99 99 none) [])
        []).readers = 0 := by
  have h := (recompute_aggregates (Novel.mk 3 "连载中" 99 99 99 none) []).2.2.2 (by decide)
  exact ⟨by decide, h.1, h.2.1, h.2.2⟩

/-! ## Chapter word count on save (chapter.js pre-save hook) -/

/-- The character class of the JavaScript regular expression `\s`. -/
def isJsWhitespace (ch : Char) : Bool :=
  ch == ' ' || ch == '\t' || ch == '\n' || ch == '\r' || ch == '\u000B' || ch == '\u000C' ||
  ch == '\u00A0' || ch == '\u1680' || ('\u2000' ≤ ch && ch ≤ '\u200A') ||
  ch == '\u2028' || ch == '\u2029' || ch == '\u202F' || ch == '\u205F' ||
  ch == '\u3000' || ch == '\uFEFF'

/-- `content.replace(/\s+/g, '')`: since every whitespace run is replaced by
the empty string, the result keeps exactly the non-whitespace characters in
order. -/
def stripJsWhitespace (s : String) : String :=
  String.mk (s.toList.filter (fun ch => !(isJsWhitespace ch)))

/-- `chapterSchema.pre('save')` (chapter.js lines 120-128): when the chapter is
new or its content is modified, recompute `wordCount` as the length of the
content with all whitespace removed; otherwise leave the chapter untouched. -/
def chapterPreSave (c : Chapter) (isNew contentModified : Bool) : Chapter :=
  if isNew || contentModified then
    { c with wordCount := (stripJsWhitespace c.content).length }
  else c

/-- C9: a save of a new chapter, or one whose content was modified, recomputes
`wordCount` before persisting as the number of characters of the content after
all whitespace is removed; a save that does not modify content leaves the
chapter (in particular `wordCount`) unchanged. -/
theorem chapter_presave_wordcount (c : Chapter) (isNew contentModified : Bool) :
    ((isNew || contentModified) = true →
      (chapterPreSave c isNew contentModified).wordCount =
        (c.content.toList.filter (fun ch => isJsWhitespace ch = false)).length) ∧
    ((isNew || contentModified) = false →
      chapterPreSave c isNew contentModified = c) := by
  constructor
  · intro h
    simp only [chapterPreSave, h, if_pos]
    show (stripJsWhitespace c.content).length = _
    simp only [stripJsWhitespace, String.length]
    congr 1
    apply List.filter_congr
    intro ch _
    simp
  · intro h
    simp only [chapterPreSave, h]
    rfl

/-- C9 witness: saving a new chapter whose content has spaces, a newline and a
tab around four letters yields word count 4, and a non-content save keeps the
stored word count. -/
theorem chapter_presave_wordcount_witness :
    (chapterPreSave (Chapter.mk 1 1 "t" "a b\nc\td " 1 0 0 false false 0) true false).wordCount
      = 4 ∧
    chapterPreSave (Chapter.mk 1 1 "t" "a b\nc\td " 1 77 0 false false 0) false false
      = Chapter.mk 1 1 "t" "a b\nc\td " 1 77 0 false false 0 := by
  constructor
  · rw [(chapter_presave_wordcount
      (Chapter.mk 1 1 "t" "a b\nc\td " 1 0 0 false false 0) true false).1 (by decide)]
    decide
  · exact (chapter_presave_wordcount
      (Chapter.mk 1 1 "t" "a b\nc\td " 1 77 0 false false 0) false false).2 (by decide)

/-! ## Reconcile-all (novelController.js fixNovelStats, no novel id) -/

/-- The summary object returned by `fixNovelStats` when run over all novels. -/
structure StatsSummary where
  total : Nat
  updated : Nat
  failed : Nat
deriving DecidableEq

/-- The all-novels branch of `fixNovelStats` (novelController.js lines 622-652):
iterate every novel, recompute its aggregates inside a per-novel try/catch,
count successes and failures, and return `{total, updated, failed}`. Each
novel is paired with a fault flag saying whether its recompute throws; a
throwing novel is left as loaded. -/
def fixAllNovelStats (novels : List (Novel × Bool)) (cs : List Chapter) :
    StatsSummary × List Novel :=
  let r := novels.foldl
    (fun (acc : Nat × Nat × List Novel) p =>
      if p.2 then (acc.1, acc.2.1 + 1, acc.2.2 ++ [p.1])
      else (acc.1 + 1, acc.2.1, acc.2.2 ++ [updateReadersCount (updateWordCount p.1 cs) cs]))
    (0, 0, [])
  ({ total := novels.length, updated := r.1, failed := r.2.1 }, r.2.2)

theorem fixAllNovelStats_foldl (novels : List (Novel × Bool)) (cs : List Chapter)
    (u f : Nat) (outs : List Novel) :
    (novels.foldl
      (fun (acc : Nat × Nat × List Novel) p =>
        if p.2 then (acc.1, acc.2.1 + 1, acc.2.2 ++ [p.1])
        else (acc.1 + 1, acc.2.1, acc.2.2 ++ [updateReadersCount (updateWordCount p.1 cs) cs]))
      (u, f, outs)) =
    (u + (novels.filter (fun p => !p.2)).length,
     f + (novels.filter (fun p => p.2)).length,
     outs ++ novels.map (fun p =>
       if p.2 then p.1 else updateReadersCount (updateWordCount p.1 cs) cs)) := by
  induction novels generalizing u f outs with
  | nil => simp
  | cons x xs ih =>
    rcases hx : x.2
    · simp only [List.foldl_cons, hx, Bool.false_eq_true, if_false, ih,
        List.filter_cons, List.map_cons]
      simp [hx, Nat.add_assoc, Nat.add_comm 1]
    · simp only [List.foldl_cons, hx, if_true, ih, List.filter_cons, List.map_cons]
      simp [hx, Nat.add_assoc, Nat.add_comm 1]

/-- C8: the all-novels reconciliation visits every novel, recomputes each
non-failing novel's aggregates, isolates per-novel failures (the fold always
completes and a failing novel is simply counted), and returns a summary where
`total` is the number of novels, `updated` counts the non-failing novels,
`failed` counts the failing ones, and `updated + failed = total`. -/
theorem fixAllNovelStats_summary (novels : List (Novel × Bool)) (cs : List Chapter) :
    (fixAllNovelStats novels cs).1.total = novels.length ∧
    (fixAllNovelStats novels cs).1.updated + (fixAllNovelStats novels cs).1.failed =
      (fixAllNovelStats novels cs).1.total ∧
    (fixAllNovelStats novels cs).1.updated = (novels.filter (fun p => !p.2)).length ∧
    (fixAllNovelStats novels cs).1.failed = (novels.filter (fun p => p.2)).length ∧
    (fixAllNovelStats novels cs).2 = novels.map (fun p =>
      if p.2 then p.1 else updateReadersCount (updateWordCount p.1 cs) cs) := by
  simp only [fixAllNovelStats, fixAllNovelStats_foldl, Nat.zero_add, List.nil_append]
  refine ⟨trivial, ?_, trivial, trivial, trivial⟩
  induction novels with
  | nil => rfl
  | cons x xs ih =>
    rcases hx : x.2 <;> simp [List.filter_cons, hx] <;> omega

/-! ## Content lifecycle: chapter create / edit / delete and the
latest-chapter pointer (chapter.js hooks, authorController.js) -/

/-- The persistent state a chapter mutation sees: one novel document and the
chapter collection (chapters of other novels may be present and are told apart
by their `novel` field). -/
structure LifecycleState where
  novel : Novel
  chapters : List Chapter
deriving DecidableEq

/-- `Chapter.findOne(filter).sort({ chapterNumber: -1 })`: the first chapter in
a descending stable sort by sequence number, i.e. the earliest listed chapter
holding the maximum sequence number. -/
def maxSeqChapter : List Chapter → Option Chapter
  | [] => none
  | c :: cs =>
    match maxSeqChapter cs with
    | none => some c
    | some m => if m.chapterNumber > c.chapterNumber then some m else some c

/-- Persisting a chapter document: a new document is appended to the
collection, an existing one replaces the stored document with the same id. -/
def persistChapter (cs : List Chapter) (ch : Chapter) (isNew : Bool) : List Chapter :=
  if isNew then cs ++ [ch] else cs.map (fun d => if d.id == ch.id then ch else d)

/-- `chapter.save()` together with its hooks: `pre('save')` (word count,
chapter.js lines 120-128) runs first, the document is persisted, then
`post('save')` (lines 131-160) loads the owning novel, recomputes its word
count and chapter count, and sets `latestChapter` to this chapter when its
sequence number is at least the just-recomputed `totalChapters`. -/
def saveChapter (s : LifecycleState) (ch : Chapter) (isNew contentModified : Bool) :
    LifecycleState :=
  let ch2 := chapterPreSave ch isNew contentModified
  let cs2 := persistChapter s.chapters ch2 isNew
  if ch2.novel == s.novel.id then
    let n1 := updateWordCount s.novel cs2
    let n2 := if ch2.chapterNumber ≥ (n1.totalChapters : Int) then
        { n1 with latestChapter := some ch2.id }
      else n1
    { novel := n2, chapters := cs2 }
  else { s with chapters := cs2 }

/-- The request body of `createChapter` (authorController.js lines 496-601). -/
structure CreateReq where
  title : String
  content : String
  chapterNumber : Option Int
  isPremium : Option Bool
  price : Option Int
  isExtra : Option Bool
deriving DecidableEq

/-- Outcome of a chapter create. -/
inductive CreateOutcome where
  | badRequest
  | conflict
  | created (cid : Nat)
deriving DecidableEq

/-- The default sequence number when the request does not carry a (truthy)
one (authorController.js lines 537-555): for a regular chapter, one past the
largest regular sequence number of the novel; for an extra chapter, one past
the largest sequence number over all of the novel's chapters; 1 when there is
no such chapter. -/
def nextChapterNumber (nid : Nat) (cs : List Chapter) (isExtra : Bool) : Int :=
  if isExtra then
    match maxSeqChapter (novelChapters nid cs) with
    | some c => c.chapterNumber + 1
    | none => 1
  else
    match maxSeqChapter (cs.filter (fun c => c.novel == nid && c.isExtra == false)) with
    | some c => c.chapterNumber + 1
    | none => 1

/-- The resolved extra flag of a create request (authorController.js lines
531-535): the request value when supplied, else true exactly for a completed
novel. -/
def createIsExtra (s : LifecycleState) (r : CreateReq) : Bool :=
  match r.isExtra with
  | some b => b
  | none => s.novel.status == "已完结"

/-- The resolved sequence number of a create request (lines 537-555): the
request value when JS-truthy (nonzero), else the partition default. -/
def createNum (s : LifecycleState) (r : CreateReq) : Int :=
  match r.chapterNumber with
  | some k => if k == 0 then nextChapterNumber s.novel.id s.chapters (createIsExtra s r) else k
  | none => nextChapterNumber s.novel.id s.chapters (createIsExtra s r)

/-- The chapter document built by `createChapter` (lines 571-580). -/
def newChapterDoc (s : LifecycleState) (r : CreateReq) (newId : Nat) : Chapter :=
  { id := newId, novel := s.novel.id, title := r.title, content := r.content,
    chapterNumber := createNum s r, wordCount := 0, viewCount := 0,
    isExtra := createIsExtra s r, isPremium := r.isPremium.getD false,
    price := if r.isPremium.getD false then r.price.getD 0 else 0 }

/-- `createChapter` (authorController.js lines 496-601) against the state's
novel: validate title and content, resolve the extra flag (defaulting to true
for a completed novel), resolve the sequence number (a missing or JS-falsy 0
request value triggers the default), reject on a collision within the same
{novel, isExtra} partition (lines 557-569), save the new chapter (running both
save hooks) and finally set the novel's `latestChapter` to the new chapter
unconditionally (lines 585-587). `newId` is the ObjectId MongoDB assigns. -/
def createChapter (s : LifecycleState) (r : CreateReq) (newId : Nat) :
    CreateOutcome × LifecycleState :=
  if r.title == "" || r.content == "" then (CreateOutcome.badRequest, s)
  else if s.chapters.any (fun c =>
      c.novel == s.novel.id && c.chapterNumber == createNum s r &&
      c.isExtra == createIsExtra s r) then
    (CreateOutcome.conflict, s)
  else
    (CreateOutcome.created newId,
     { saveChapter s (newChapterDoc s r newId) true true with
       novel := { (saveChapter s (newChapterDoc s r newId) true true).novel with
                  latestChapter := some newId } })

/-- The request body of `updateChapter` (authorController.js lines 604-687). -/
structure UpdateReq where
  title : Option String
  content : Option String
  chapterNumber : Option Int
  isPremium : Option Bool
  price : Option Int
  isExtra : Option Bool
deriving DecidableEq

/-- Outcome of a chapter update. -/
inductive UpdateOutcome where
  | notFound
  | badRequest
  | conflict
  | ok
deriving DecidableEq

/-- Apply a truthy request title to the fetched chapter document
(authorController.js line 647). -/
def updApplyTitle (r : UpdateReq) (ch : Chapter) : Chapter :=
  match r.title with
  | some u => if u == "" then ch else { ch with title := u }
  | none => ch

/-- Apply a truthy request content to the fetched chapter document (line 648). -/
def updApplyContent (r : UpdateReq) (ch : Chapter) : Chapter :=
  match r.content with
  | some t => if t == "" then ch else { ch with content := t }
  | none => ch

/-- Title update followed by content update (lines 647-648). -/
def updApplyTitleContent (r : UpdateReq) (ch : Chapter) : Chapter :=
  updApplyContent r (updApplyTitle r ch)

/-- Apply a supplied premium flag (line 668). -/
def updApplyPremium (r : UpdateReq) (ch : Chapter) : Chapter :=
  match r.isPremium with
  | some b => { ch with isPremium := b }
  | none => ch

/-- Apply a supplied price, but only when the request itself marks the chapter
premium (line 669 tests the truthiness of the request value). -/
def updApplyPrice (r : UpdateReq) (ch : Chapter) : Chapter :=
  if r.isPremium == some true then
    match r.price with
    | some p => { ch with price := p }
    | none => ch
  else ch

/-- Apply a supplied extra flag (line 670). -/
def updApplyExtra (r : UpdateReq) (ch : Chapter) : Chapter :=
  match r.isExtra with
  | some b => { ch with isExtra := b }
  | none => ch

/-- Whether the mongoose document will report `isModified('content')` at save
time: a truthy content value different from the stored one was assigned. -/
def updContentModified (r : UpdateReq) (ch : Chapter) : Bool :=
  match r.content with
  | some t => t != "" && t != ch.content
  | none => false

/-- The tail of `updateChapter` after the sequence-number step (lines 668-673):
apply the premium flag, the price (only when the request marks the chapter
premium) and the extra flag, then save the chapter through both save hooks. -/
def updFinishSave (s : LifecycleState) (r : UpdateReq) (contentModified : Bool)
    (ch : Chapter) : UpdateOutcome × LifecycleState :=
  (UpdateOutcome.ok,
   saveChapter s
     (updApplyExtra r (updApplyPrice r (updApplyPremium r ch))) false contentModified)

/-- `updateChapter` (authorController.js lines 604-687): find the chapter,
reject clearing the extra flag of a completed novel's chapter, apply truthy
title / content, and when a different sequence number is supplied reject with
a conflict if ANY other chapter of the same novel holds it (the lookup at
lines 652-656 carries no isExtra condition), otherwise apply it and save.
On any rejection nothing is persisted. -/
def updateChapter (s : LifecycleState) (cid : Nat) (r : UpdateReq) :
    UpdateOutcome × LifecycleState :=
  match s.chapters.find? (fun c => c.id == cid) with
  | none => (UpdateOutcome.notFound, s)
  | some ch =>
    if s.novel.status == "已完结" && r.isExtra == some false then
      (UpdateOutcome.badRequest, s)
    else
      match r.chapterNumber with
      | some m =>
        if m == ch.chapterNumber then
          updFinishSave s r (updContentModified r ch) (updApplyTitleContent r ch)
        else if s.chapters.any (fun d =>
            d.novel == ch.novel && d.chapterNumber == m && d.id != cid) then
          (UpdateOutcome.conflict, s)
        else
          updFinishSave s r (updContentModified r ch)
            { updApplyTitleContent r ch with chapterNumber := m }
      | none => updFinishSave s r (updContentModified r ch) (updApplyTitleContent r ch)

/-- `Chapter.findOneAndDelete({ _id: chapterId })` with its pre / post hooks
(chapter.js lines 219-317): the pre hook records whether the deleted chapter
was its novel's `latestChapter`; the document is removed; the post hook, when
the owning novel is found, reassigns `latestChapter` to the remaining chapter
of that novel with the highest sequence number (or null) if the deleted one
was the latest, saves, and recomputes the word-count aggregates.
`delReassignLatest` is the pointer-reassignment part. -/
def delReassignLatest (s : LifecycleState) (cid : Nat) : Novel :=
  if s.novel.latestChapter == some cid then
    { s.novel with
      latestChapter :=
        (maxSeqChapter (novelChapters s.novel.id
          (s.chapters.filter (fun c => c.id != cid)))).map (fun c => c.id) }
  else s.novel

def findOneAndDeleteChapter (s : LifecycleState) (cid : Nat) : LifecycleState :=
  match s.chapters.find? (fun c => c.id == cid) with
  | none => s
  | some ch =>
    if ch.novel == s.novel.id then
      { novel := updateWordCount (delReassignLatest s cid)
          (s.chapters.filter (fun c => c.id != cid)),
        chapters := s.chapters.filter (fun c => c.id != cid) }
    else { s with chapters := s.chapters.filter (fun c => c.id != cid) }

/-- `Chapter.deleteMany({ novel: novelId })` with its post hook (chapter.js
lines 376-433): all chapters of the novel are removed; the hook counts the
remaining chapters of that novel, clears `latestChapter` when none remain,
otherwise points it at the highest-sequence survivor, and recomputes the
word-count aggregates. `bulkReassignLatest` is the pointer part of the hook. -/
def bulkReassignLatest (s : LifecycleState) (nid : Nat) : Novel :=
  if (novelChapters nid (s.chapters.filter (fun c => c.novel != nid))).length == 0 then
    (if s.novel.latestChapter != none then { s.novel with latestChapter := none }
     else s.novel)
  else
    match maxSeqChapter (novelChapters nid (s.chapters.filter (fun c => c.novel != nid))) with
    | some lc =>
      if s.novel.latestChapter != some lc.id then
        { s.novel with latestChapter := some lc.id }
      else s.novel
    | none => s.novel

def deleteManyByNovel (s : LifecycleState) (nid : Nat) : LifecycleState :=
  if nid == s.novel.id then
    { novel := updateWordCount (bulkReassignLatest s nid)
        (s.chapters.filter (fun c => c.novel != nid)),
      chapters := s.chapters.filter (fun c => c.novel != nid) }
  else { s with chapters := s.chapters.filter (fun c => c.novel != nid) }

/-- A chapter-deletion event: a single delete through `findOneAndDelete`, or a
bulk delete of a novel's chapters through `deleteMany({ novel })`. -/
inductive DeleteOp where
  | one (cid : Nat)
  | bulk (nid : Nat)
deriving DecidableEq

/-- Apply one deletion event. -/
def applyDeleteOp (s : LifecycleState) : DeleteOp → LifecycleState
  | DeleteOp.one cid => findOneAndDeleteChapter s cid
  | DeleteOp.bulk nid => deleteManyByNovel s nid

/-- Apply a sequence of deletion events. -/
def applyDeleteOps (s : LifecycleState) (ops : List DeleteOp) : LifecycleState :=
  ops.foldl applyDeleteOp s

/-- Whether a latest-chapter pointer is correct for a given live chapter set:
null exactly when the set is empty, otherwise the id of some live chapter of
maximal sequence number. -/
def latestOk : Option Nat → List Chapter → Bool
  | none, live => live.isEmpty
  | some lid, live =>
    live.any (fun c =>
      c.id == lid && live.all (fun d => decide (d.chapterNumber ≤ c.chapterNumber)))

/-- The latest-chapter invariant of the spec, for the state's novel and its
live chapter set. -/
def latestInvB (s : LifecycleState) : Bool :=
  latestOk s.novel.latestChapter (novelChapters s.novel.id s.chapters)

/-! ### C6: latest-chapter pointer on chapter creation -/

/-- C6 (amended): a successful chapter creation always sets the novel's
`latestChapter` to the new chapter, regardless of how its sequence number
compares to the current latest one (the controller assigns it unconditionally
after the save hooks); a rejected creation leaves the state unchanged. -/
theorem createChapter_always_sets_latest (s : LifecycleState) (r : CreateReq) (newId : Nat) :
    ((createChapter s r newId).1 = CreateOutcome.created newId ∧
      ((createChapter s r newId).2).novel.latestChapter = some newId) ∨
    (((createChapter s r newId).1 = CreateOutcome.badRequest ∨
      (createChapter s r newId).1 = CreateOutcome.conflict) ∧
      (createChapter s r newId).2 = s) := by
  unfold createChapter
  by_cases h1 : (r.title == "" || r.content == "") = true
  · right
    rw [if_pos h1]
    exact ⟨Or.inl rfl, rfl⟩
  · rw [if_neg h1]
    by_cases h2 : (s.chapters.any fun c =>
        c.novel == s.novel.id && c.chapterNumber == createNum s r &&
        c.isExtra == createIsExtra s r) = true
    · right
      rw [if_pos h2]
      exact ⟨Or.inr rfl, rfl⟩
    · left
      rw [if_neg h2]
      exact ⟨rfl, rfl⟩

/-- A novel whose latest chapter (id 12) has sequence number 5, with another
chapter (id 11) at sequence number 1. -/
def createLatestState : LifecycleState :=
  ⟨⟨1, "连载中", 2, 2, 0, some 12⟩,
   [⟨11, 1, "a", "x", 1, 1, 0, false, false, 0⟩,
    ⟨12, 1, "b", "y", 5, 1, 0, false, false, 0⟩]⟩

/-- A create request carrying sequence number 3, lower than the current
latest chapter's 5. -/
def createLatestReq : CreateReq := ⟨"c", "z", some 3, none, none, some false⟩

/-- C6 counterexample: creating a chapter with sequence number 3 while the
current latest chapter holds sequence number 5 succeeds and MOVES
`latestChapter` to the new chapter, although the claim requires it to be left
unchanged when the new sequence number is below the current latest one. -/
theorem createChapter_latest_counterexample :
    (createChapter createLatestState createLatestReq 13).1 = CreateOutcome.created 13 ∧
    ((createChapter createLatestState createLatestReq 13).2).novel.latestChapter = some 13 ∧
    createLatestState.novel.latestChapter = some 12 ∧
    (∃ c ∈ createLatestState.chapters, c.id = 12 ∧ c.chapterNumber = 5) ∧
    (3 : Int) < 5 := by
  refine ⟨by decide, by decide, by decide, ⟨⟨12, 1, "b", "y", 5, 1, 0, false, false, 0⟩,
    by decide, by decide, by decide⟩, by decide⟩

/-! ### C7: sequence-number collision check on chapter edit -/

/-- C7 (amended): editing a chapter's sequence number to a new value is
rejected with a conflict exactly when some OTHER chapter of the same novel —
of either isExtra partition — already holds that number; on rejection the
state is unchanged. -/
theorem updateChapter_seq_conflict (s : LifecycleState) (cid : Nat) (r : UpdateReq)
    (ch : Chapter) (m : Int)
    (hfind : s.chapters.find? (fun c => c.id == cid) = some ch)
    (hnum : r.chapterNumber = some m)
    (hne : m ≠ ch.chapterNumber)
    (hbad : (s.novel.status == "已完结" && r.isExtra == some false) = false) :
    ((updateChapter s cid r).1 = UpdateOutcome.conflict ↔
      ∃ d ∈ s.chapters, d.novel = ch.novel ∧ d.chapterNumber = m ∧ d.id ≠ cid) ∧
    ((updateChapter s cid r).1 = UpdateOutcome.conflict → (updateChapter s cid r).2 = s) := by
  have hbeq : (m == ch.chapterNumber) = false := by
    simp [hne]
  by_cases h2 : (s.chapters.any fun d =>
      d.novel == ch.novel && d.chapterNumber == m && d.id != cid) = true
  · have hred : updateChapter s cid r = (UpdateOutcome.conflict, s) := by
      unfold updateChapter
      rw [hfind, hbad, hnum]
      simp only [Bool.false_eq_true, if_false, hbeq, h2, if_true]
    rw [hred]
    constructor
    · simp only [true_iff]
      rw [List.any_eq_true] at h2
      obtain ⟨d, hd, hdp⟩ := h2
      simp only [Bool.and_eq_true, beq_iff_eq, bne_iff_ne, ne_eq] at hdp
      exact ⟨d, hd, hdp.1.1, hdp.1.2, hdp.2⟩
    · intro _
      rfl
  · have hred : updateChapter s cid r =
        updFinishSave s r (updContentModified r ch)
          { updApplyTitleContent r ch with chapterNumber := m } := by
      unfold updateChapter
      rw [hfind, hbad, hnum]
      simp only [Bool.false_eq_true, if_false, hbeq, h2]
    rw [hred]
    constructor
    · constructor
      · intro hcon
        exact absurd hcon (by simp [updFinishSave])
      · intro hex
        exfalso
        apply h2
        rw [List.any_eq_true]
        obtain ⟨d, hd, h1, hm, hid⟩ := hex
        exact ⟨d, hd, by simp [h1, hm, hid]⟩
    · intro hcon
      exact absurd hcon (by simp [updFinishSave])

/-- A novel (id 7) with a regular chapter (id 1, sequence 2) and an extra
chapter (id 2, sequence 3). -/
def updConflictState : LifecycleState :=
  ⟨⟨7, "连载中", 2, 2, 0, some 2⟩,
   [⟨1, 7, "a", "x", 2, 1, 0, false, false, 0⟩,
    ⟨2, 7, "b", "y", 3, 1, 0, true, false, 0⟩]⟩

/-- An edit request moving the chapter to sequence number 3. -/
def updConflictReq : UpdateReq := ⟨none, none, some 3, none, none, none⟩

/-- C7 counterexample: sequence number 3 is held only by a chapter of the
OPPOSITE isExtra partition (the extra chapter id 2), yet editing the regular
chapter id 1 to sequence number 3 is rejected with a conflict — the claim says
such an edit must not be rejected. -/
theorem updateChapter_crosspartition_counterexample :
    (updateChapter updConflictState 1 updConflictReq).1 = UpdateOutcome.conflict ∧
    (∀ d ∈ updConflictState.chapters, d.chapterNumber = 3 → d.isExtra = true) ∧
    (∃ c ∈ updConflictState.chapters, c.id = 1 ∧ c.isExtra = false) := by
  refine ⟨by decide, by decide, ⟨⟨1, 7, "a", "x", 2, 1, 0, false, false, 0⟩,
    by decide, by decide, by decide⟩⟩

/-- C7 witness: the amended conflict characterization applied to the concrete
cross-partition state. -/
theorem updateChapter_seq_conflict_witness :
    ((updateChapter updConflictState 1 updConflictReq).1 = UpdateOutcome.conflict ↔
      ∃ d ∈ updConflictState.chapters, d.novel = 7 ∧ d.chapterNumber = 3 ∧ d.id ≠ 1) ∧
    ((updateChapter updConflictState 1 updConflictReq).1 = UpdateOutcome.conflict →
      (updateChapter updConflictState 1 updConflictReq).2 = updConflictState) :=
  updateChapter_seq_conflict updConflictState 1 updConflictReq
    ⟨1, 7, "a", "x", 2, 1, 0, false, false, 0⟩ 3 (by decide) rfl (by decide) (by decide)

/-! ### C3: the latest-chapter invariant under deletion sequences -/

theorem updateWordCount_latestChapter (n : Novel) (cs : List Chapter) :
    (updateWordCount n cs).latestChapter = n.latestChapter := rfl

theorem updateWordCount_id (n : Novel) (cs : List Chapter) :
    (updateWordCount n cs).id = n.id := rfl

theorem maxSeqChapter_eq_none {l : List Chapter} : maxSeqChapter l = none ↔ l = [] := by
  cases l with
  | nil => simp [maxSeqChapter]
  | cons c cs =>
    simp only [maxSeqChapter]
    constructor
    · intro h
      exfalso
      cases hrec : maxSeqChapter cs <;> rw [hrec] at h <;> simp at h
      revert h
      split <;> simp
    · intro h
      cases h

theorem maxSeqChapter_mem {l : List Chapter} {m : Chapter}
    (h : maxSeqChapter l = some m) : m ∈ l := by
  induction l generalizing m with
  | nil => cases h
  | cons c cs ih =>
    simp only [maxSeqChapter] at h
    cases hrec : maxSeqChapter cs <;> rw [hrec] at h <;> simp only [] at h
    · simp at h
      simp [h]
    · rename_i k
      by_cases hgt : k.chapterNumber > c.chapterNumber
      · rw [if_pos hgt] at h
        simp at h
        subst h
        exact List.mem_cons_of_mem c (ih hrec)
      · rw [if_neg hgt] at h
        simp at h
        simp [h]

theorem maxSeqChapter_le {l : List Chapter} {m : Chapter}
    (h : maxSeqChapter l = some m) : ∀ d ∈ l, d.chapterNumber ≤ m.chapterNumber := by
  induction l generalizing m with
  | nil => cases h
  | cons c cs ih =>
    simp only [maxSeqChapter] at h
    cases hrec : maxSeqChapter cs <;> rw [hrec] at h <;> simp only [] at h
    · simp at h
      subst h
      intro d hd
      rcases List.mem_cons.mp hd with h1 | h1
      · rw [h1]
      · exact absurd h1 (by simp [maxSeqChapter_eq_none.mp hrec])
    · rename_i k
      by_cases hgt : k.chapterNumber > c.chapterNumber
      · rw [if_pos hgt] at h
        simp at h
        subst h
        intro d hd
        rcases List.mem_cons.mp hd with h1 | h1
        · rw [h1]
          exact le_of_lt hgt
        · exact ih hrec d h1
      · rw [if_neg hgt] at h
        simp at h
        subst h
        intro d hd
        rcases List.mem_cons.mp hd with h1 | h1
        · rw [h1]
        · exact le_trans (ih hrec d h1) (le_of_not_gt hgt)

theorem latestOk_none_iff {live : List Chapter} :
    latestOk none live = true ↔ live = [] := by
  cases live <;> simp [latestOk]

/-- The pointer produced from `maxSeqChapter` is always correct for the set it
was computed from. -/
theorem latestOk_maxSeq (live : List Chapter) :
    latestOk ((maxSeqChapter live).map (fun c => c.id)) live = true := by
  cases h : maxSeqChapter live with
  | none =>
    show latestOk none live = true
    exact latestOk_none_iff.mpr (maxSeqChapter_eq_none.mp h)
  | some m =>
    show latestOk (some m.id) live = true
    simp only [latestOk, List.any_eq_true]
    refine ⟨m, maxSeqChapter_mem h, ?_⟩
    simp only [Bool.and_eq_true, beq_self_eq_true, true_and, List.all_eq_true]
    intro d hd
    simp [maxSeqChapter_le h d hd]

/-- A correct pointer stays correct when the live set is filtered by a
predicate that keeps every chapter carrying the pointed-to id. -/
theorem latestOk_filter (live : List Chapter) (lid : Nat) (p : Chapter → Bool)
    (h : latestOk (some lid) live = true)
    (hp : ∀ c ∈ live, c.id = lid → p c = true) :
    latestOk (some lid) (live.filter p) = true := by
  simp only [latestOk, List.any_eq_true, Bool.and_eq_true, beq_iff_eq,
    List.all_eq_true] at h ⊢
  obtain ⟨c, hc, hcid, hmax⟩ := h
  refine ⟨c, List.mem_filter.mpr ⟨hc, hp c hc hcid⟩, hcid, ?_⟩
  intro d hd
  exact hmax d (List.mem_filter.mp hd).1

/-- Two chapters of an id-deduplicated collection agreeing on their id are the
same document. -/
theorem eq_of_mem_of_id_eq {cs : List Chapter}
    (hids : (cs.map (fun c => c.id)).Nodup) {a b : Chapter}
    (ha : a ∈ cs) (hb : b ∈ cs) (h : a.id = b.id) : a = b :=
  List.inj_on_of_nodup_map hids ha hb h

theorem nodup_ids_filter (cs : List Chapter) (p : Chapter → Bool)
    (h : (cs.map (fun c => c.id)).Nodup) :
    ((cs.filter p).map (fun c => c.id)).Nodup :=
  h.sublist (List.Sublist.map (fun c => c.id) (List.filter_sublist cs))

/-- Filtering the collection then restricting to a novel is restricting to the
novel then filtering. -/
theorem novelChapters_filter (nid : Nat) (p : Chapter → Bool) (cs : List Chapter) :
    novelChapters nid (cs.filter p) = (novelChapters nid cs).filter p := by
  simp only [novelChapters, List.filter_filter]
  apply List.filter_congr
  intro c _
  rw [Bool.and_comm]

theorem mem_novelChapters {nid : Nat} {cs : List Chapter} {c : Chapter} :
    c ∈ novelChapters nid cs ↔ c ∈ cs ∧ c.novel = nid := by
  simp [novelChapters]

/-- Single-chapter deletion through `findOneAndDelete` preserves id
uniqueness and the latest-chapter invariant. -/
theorem findOneAndDelete_preserves (s : LifecycleState) (cid : Nat)
    (hids : (s.chapters.map (fun c => c.id)).Nodup)
    (hinv : latestInvB s = true) :
    (((findOneAndDeleteChapter s cid).chapters.map (fun c => c.id)).Nodup) ∧
    latestInvB (findOneAndDeleteChapter s cid) = true := by
  unfold findOneAndDeleteChapter
  split
  · exact ⟨hids, hinv⟩
  · rename_i ch hfind
    have hchmem : ch ∈ s.chapters := List.mem_of_find?_eq_some hfind
    have hchid : ch.id = cid := by
      have := List.find?_some hfind
      simpa using this
    split
    · rename_i hnov
      refine ⟨nodup_ids_filter _ _ hids, ?_⟩
      show latestOk
        (updateWordCount (delReassignLatest s cid)
          (s.chapters.filter (fun c => c.id != cid))).latestChapter
        (novelChapters
          (updateWordCount (delReassignLatest s cid)
            (s.chapters.filter (fun c => c.id != cid))).id
          (s.chapters.filter (fun c => c.id != cid))) = true
      rw [updateWordCount_latestChapter, updateWordCount_id]
      unfold delReassignLatest
      by_cases hlat : (s.novel.latestChapter == some cid) = true
      · rw [if_pos hlat]
        show latestOk ((maxSeqChapter (novelChapters s.novel.id
          (s.chapters.filter (fun c => c.id != cid)))).map (fun c => c.id))
          (novelChapters s.novel.id (s.chapters.filter (fun c => c.id != cid))) = true
        exact latestOk_maxSeq _
      · rw [if_neg hlat]
        show latestOk s.novel.latestChapter
          (novelChapters s.novel.id (s.chapters.filter (fun c => c.id != cid))) = true
        rw [novelChapters_filter]
        unfold latestInvB at hinv
        cases hl : s.novel.latestChapter with
        | none =>
          rw [hl] at hinv
          rw [latestOk_none_iff.mp hinv]
          exact latestOk_none_iff.mpr rfl
        | some lid =>
          rw [hl] at hinv hlat
          have hlidne : lid ≠ cid := by
            intro h
            rw [h] at hlat
            simp at hlat
          apply latestOk_filter _ _ _ hinv
          intro c _ hcid
          simp [hcid, hlidne]
    · rename_i hnov
      refine ⟨nodup_ids_filter _ _ hids, ?_⟩
      show latestOk s.novel.latestChapter
        (novelChapters s.novel.id (s.chapters.filter (fun c => c.id != cid))) = true
      have hlive : novelChapters s.novel.id (s.chapters.filter (fun c => c.id != cid)) =
          novelChapters s.novel.id s.chapters := by
        rw [novelChapters_filter]
        apply List.filter_eq_self.mpr
        intro c hc
        obtain ⟨hcs, hcn⟩ := mem_novelChapters.mp hc
        simp only [bne_iff_ne, ne_eq]
        intro hcontra
        have hceq : c = ch := eq_of_mem_of_id_eq hids hcs hchmem (hcontra.trans hchid.symm)
        rw [hceq] at hcn
        rw [hcn] at hnov
        simp at hnov
      rw [hlive]
      exact hinv

/-- Every live chapter of the novel is removed by `deleteMany({ novel })`. -/
theorem novelChapters_after_bulk (nid : Nat) (cs : List Chapter) :
    novelChapters nid (cs.filter (fun c => c.novel != nid)) = [] := by
  rw [novelChapters_filter]
  apply List.filter_eq_nil.mpr
  intro c hc
  simp [mem_novelChapters.mp hc]

/-- The pointer computed by the bulk-deletion hook for the novel itself is
always null: no chapter of the novel survives the bulk delete. -/
theorem bulkReassignLatest_none (s : LifecycleState) (nid : Nat) :
    (bulkReassignLatest s nid).latestChapter = none := by
  unfold bulkReassignLatest
  rw [novelChapters_after_bulk]
  split
  · split
    · rfl
    · rename_i hl
      simpa using hl
  · rename_i hlen
    simp at hlen

/-- The bulk-deletion hook only touches the latest-chapter pointer of the
novel, never its id. -/
theorem bulkReassignLatest_id (s : LifecycleState) (nid : Nat) :
    (bulkReassignLatest s nid).id = s.novel.id := by
  unfold bulkReassignLatest
  split
  · split <;> rfl
  · split
    · split <;> rfl
    · rfl

/-- Bulk deletion of a novel's chapters preserves id uniqueness and the
latest-chapter invariant. -/
theorem deleteMany_preserves (s : LifecycleState) (nid : Nat)
    (hids : (s.chapters.map (fun c => c.id)).Nodup)
    (hinv : latestInvB s = true) :
    (((deleteManyByNovel s nid).chapters.map (fun c => c.id)).Nodup) ∧
    latestInvB (deleteManyByNovel s nid) = true := by
  unfold deleteManyByNovel
  split
  · rename_i hnov
    refine ⟨nodup_ids_filter _ _ hids, ?_⟩
    show latestOk
      (updateWordCount (bulkReassignLatest s nid)
        (s.chapters.filter (fun c => c.novel != nid))).latestChapter
      (novelChapters
        (updateWordCount (bulkReassignLatest s nid)
          (s.chapters.filter (fun c => c.novel != nid))).id
        (s.chapters.filter (fun c => c.novel != nid))) = true
    rw [updateWordCount_latestChapter, updateWordCount_id, bulkReassignLatest_none,
      bulkReassignLatest_id]
    have hid : nid = s.novel.id := by simpa using hnov
    have hempty2 : novelChapters s.novel.id
        (s.chapters.filter (fun c => c.novel != nid)) = [] := by
      rw [← hid]
      exact novelChapters_after_bulk nid s.chapters
    rw [hempty2]
    exact latestOk_none_iff.mpr rfl
  · rename_i hnov
    refine ⟨nodup_ids_filter _ _ hids, ?_⟩
    show latestOk s.novel.latestChapter
      (novelChapters s.novel.id (s.chapters.filter (fun c => c.novel != nid))) = true
    have hlive : novelChapters s.novel.id (s.chapters.filter (fun c => c.novel != nid)) =
        novelChapters s.novel.id s.chapters := by
      rw [novelChapters_filter]
      apply List.filter_eq_self.mpr
      intro c hc
      obtain ⟨_, hcn⟩ := mem_novelChapters.mp hc
      simp only [bne_iff_ne, ne_eq, hcn]
      intro hcontra
      rw [hcontra] at hnov
      simp at hnov
    rw [hlive]
    exact hinv

/-- One deletion event preserves id uniqueness and the invariant. -/
theorem applyDeleteOp_preserves (s : LifecycleState) (op : DeleteOp)
    (hids : (s.chapters.map (fun c => c.id)).Nodup)
    (hinv : latestInvB s = true) :
    (((applyDeleteOp s op).chapters.map (fun c => c.id)).Nodup) ∧
    latestInvB (applyDeleteOp s op) = true := by
  cases op with
  | one cid => exact findOneAndDelete_preserves s cid hids hinv
  | bulk nid => exact deleteMany_preserves s nid hids hinv

/-- C3 (amended): after any sequence of chapter deletions — single deletes via
`findOneAndDelete` and bulk deletes via `deleteMany({ novel })` — starting
from a state with distinct chapter ids in which the invariant holds, the
novel's `latestChapter` still equals (the id of) a remaining chapter of that
novel with the maximum sequence number, or null when zero chapters remain.
Chapter creations and sequence-number edits are excluded: they can break the
invariant (see the C6 counterexample and `createChapter_always_sets_latest`). -/
theorem deletes_preserve_latest_inv (ops : List DeleteOp) (s : LifecycleState)
    (hids : (s.chapters.map (fun c => c.id)).Nodup)
    (hinv : latestInvB s = true) :
    latestInvB (applyDeleteOps s ops) = true := by
  induction ops generalizing s with
  | nil => exact hinv
  | cons op ops ih =>
    have h := applyDeleteOp_preserves s op hids hinv
    exact ih (applyDeleteOp s op) h.1 h.2

/-- C3 witness: deleting the latest chapter (id 12, sequence 2) and then bulk
deleting the whole novel keeps the invariant true at each step of the concrete
two-chapter state. -/
theorem deletes_preserve_latest_inv_witness :
    latestInvB (applyDeleteOps
      ⟨⟨1, "连载中", 2, 2, 0, some 12⟩,
       [⟨11, 1, "a", "x", 1, 1, 0, false, false, 0⟩,
        ⟨12, 1, "b", "y", 2, 1, 0, false, false, 0⟩]⟩
      [DeleteOp.one 12, DeleteOp.bulk 1]) = true :=
  deletes_preserve_latest_inv [DeleteOp.one 12, DeleteOp.bulk 1]
    ⟨⟨1, "连载中", 2, 2, 0, some 12⟩,
     [⟨11, 1, "a", "x", 1, 1, 0, false, false, 0⟩,
      ⟨12, 1, "b", "y", 2, 1, 0, false, false, 0⟩]⟩
    (by decide) (by decide)

/-- C3 counterexample: a sequence consisting of three successful chapter
creations (sequence numbers 1, then 5, then 3) starting from a fresh novel
with no chapters ends in a state where `latestChapter` points at the sequence-3
chapter while a sequence-5 chapter remains — the invariant of the claim fails
after a sequence of creates. -/
theorem create_sequence_breaks_latest_inv :
    (createChapter ⟨⟨1, "连载中", 0, 0, 0, none⟩, []⟩ ⟨"a", "x", some 1, none, none, some false⟩ 11).1
      = CreateOutcome.created 11 ∧
    (createChapter (createChapter ⟨⟨1, "连载中", 0, 0, 0, none⟩, []⟩
        ⟨"a", "x", some 1, none, none, some false⟩ 11).2
        ⟨"b", "y", some 5, none, none, some false⟩ 12).1 = CreateOutcome.created 12 ∧
    (createChapter (createChapter (createChapter ⟨⟨1, "连载中", 0, 0, 0, none⟩, []⟩
        ⟨"a", "x", some 1, none, none, some false⟩ 11).2
        ⟨"b", "y", some 5, none, none, some false⟩ 12).2
        ⟨"c", "z", some 3, none, none, some false⟩ 13).1 = CreateOutcome.created 13 ∧
    latestInvB (createChapter (createChapter (createChapter ⟨⟨1, "连载中", 0, 0, 0, none⟩, []⟩
        ⟨"a", "x", some 1, none, none, some false⟩ 11).2
        ⟨"b", "y", some 5, none, none, some false⟩ 12).2
        ⟨"c", "z", some 3, none, none, some false⟩ 13).2 = false := by
  refine ⟨by decide, by decide, by decide, by decide⟩

/-! ## Concurrent recordView calls (C5)

A `recordView` call suspends at each awaited persistence operation: after the
`findOne` it either finishes synchronously (record fresh: return false) or
still has one awaited write to do (the insert of a new record, or the save of
a refreshed timestamp). A concurrent execution of several calls for the same
chapter and identity is an interleaving of these atomic segments; MongoDB
serializes the individual operations and enforces the unique indexes at
insert time. -/

/-- The continuation of one in-flight `recordView` call. -/
inductive CallPhase where
  | start
  | needInsert
  | needRefresh (r : ViewRecord)
  | done (b : Bool)
deriving DecidableEq

/-- One atomic segment of a `recordView` call for chapter `c`, identity `o`
and call time `t`, against the current store. `start` performs the `findOne`
and the synchronous decision after it; `needInsert` performs the `create`
(losing when a unique index is violated, per the inner try/catch);
`needRefresh` performs the expired-record save. -/
def stepCall (c : Nat) (o : ViewOptions) (t : Int) (store : List ViewRecord) :
    CallPhase → List ViewRecord × CallPhase
  | CallPhase.start =>
    match buildQuery c o with
    | none => (store, CallPhase.done false)
    | some q =>
      match findOne q store with
      | some r =>
        if windowMs ≤ t - r.viewedAt then (store, CallPhase.needRefresh r)
        else (store, CallPhase.done false)
      | none => (store, CallPhase.needInsert)
  | CallPhase.needRefresh r =>
    (replaceFirst store r { r with viewedAt := t }, CallPhase.done true)
  | CallPhase.needInsert =>
    if insertConflicts (newRecord c o t) store then (store, CallPhase.done false)
    else (store ++ [newRecord c o t], CallPhase.done true)
  | CallPhase.done b => (store, CallPhase.done b)

/-- The shared store plus every call's time and continuation. -/
structure RaceState where
  store : List ViewRecord
  calls : List (Int × CallPhase)
deriving DecidableEq

/-- Run the next atomic segment of call `k` (a no-op for an index out of range
or a finished call). -/
def raceStep (c : Nat) (o : ViewOptions) (st : RaceState) (k : Nat) : RaceState :=
  match st.calls.get? k with
  | none => st
  | some tp =>
    { store := (stepCall c o tp.1 st.store tp.2).1,
      calls := st.calls.set k (tp.1, (stepCall c o tp.1 st.store tp.2).2) }

/-- Execute an interleaving: all calls start simultaneously (times `times`,
phase `start`) against the initial store, and the scheduler `sched` picks
which call runs its next atomic segment. -/
def runRace (c : Nat) (o : ViewOptions) (init : List ViewRecord) (times : List Int)
    (sched : List Nat) : RaceState :=
  sched.foldl (raceStep c o)
    { store := init, calls := times.map (fun t => (t, CallPhase.start)) }

/-- C5 counterexample: two concurrent first views of chapter 1 under the
IP-only fallback identity (no user id, no client token), 1 second apart, with
both lookups scheduled before either insert, BOTH return true: the partial
unique indexes require a non-null user or a non-null client token, so nothing
makes the second insert fail. The claim asserts exactly one true for every
identity. -/
theorem race_ip_only_counterexample :
    ((runRace 1 (ViewOptions.mk none none (some "1.2.3.4")) [] [0, 1000] [0, 1, 0, 1]).calls.map
      (fun p => p.2)) = [CallPhase.done true, CallPhase.done true] ∧
    (1000 - 0 < windowMs ∧ 0 - 1000 < windowMs) := by
  refine ⟨by decide, by decide, by decide⟩

/-! ### Supporting lemmas for the race model -/

/-- The number of store records matching the dedup query. -/
def matchCount (q : DedupQuery) (store : List ViewRecord) : Nat :=
  store.countP (fun r => matchesQuery q r)

/-- The number of calls that have returned true. -/
def trueCount (calls : List (Int × CallPhase)) : Nat :=
  calls.countP (fun p => p.2 == CallPhase.done true)

/-- The execution invariant of a race between calls for one unique-indexed
identity: call times never change; every matching record was stamped by one
of the calls; the number of matching records equals the number of calls that
returned true and never exceeds one; no call is ever about to refresh; and
once some call has returned false a matching record exists. -/
def RaceInv (q : DedupQuery) (times : List Int) (st : RaceState) : Prop :=
  st.calls.map Prod.fst = times ∧
  (∀ r ∈ st.store, matchesQuery q r = true → r.viewedAt ∈ times) ∧
  matchCount q st.store = trueCount st.calls ∧
  matchCount q st.store ≤ 1 ∧
  (∀ i x, st.calls.get? i = some x → ∀ r, x.2 ≠ CallPhase.needRefresh r) ∧
  ((∃ i x, st.calls.get? i = some x ∧ x.2 = CallPhase.done false) →
    matchCount q st.store ≠ 0)

theorem set_self_of_get? {α : Type} {l : List α} {k : Nat} {a : α}
    (h : l.get? k = some a) : l.set k a = l := by
  induction l generalizing k with
  | nil => cases h
  | cons x xs ih =>
    cases k with
    | zero =>
      have hx : some x = some a := h
      injection hx with hx
      simp [List.set, hx]
    | succ n =>
      have hh : xs.get? n = some a := h
      simp [List.set, ih hh]

theorem countP_set_congr {α : Type} (p : α → Bool) {l : List α} {k : Nat} {a : α}
    (h : l.get? k = some a) (b : α) (hpb : p b = p a) :
    (l.set k b).countP p = l.countP p := by
  induction l generalizing k with
  | nil => cases h
  | cons x xs ih =>
    cases k with
    | zero =>
      have hx : some x = some a := h
      injection hx with hx
      subst hx
      simp [List.set, List.countP_cons, hpb]
    | succ n =>
      have hh : xs.get? n = some a := h
      simp [List.set, List.countP_cons, ih hh]

theorem countP_set_incr {α : Type} (p : α → Bool) {l : List α} {k : Nat} {a : α}
    (h : l.get? k = some a) (b : α) (hpa : p a = false) (hpb : p b = true) :
    (l.set k b).countP p = l.countP p + 1 := by
  induction l generalizing k with
  | nil => cases h
  | cons x xs ih =>
    cases k with
    | zero =>
      have hx : some x = some a := h
      injection hx with hx
      subst hx
      simp [List.set, List.countP_cons, hpa, hpb]
    | succ n =>
      have hh : xs.get? n = some a := h
      simp only [List.set, List.countP_cons, ih hh]
      omega

theorem map_fst_set {l : List (Int × CallPhase)} {k : Nat} {t : Int} {ph : CallPhase}
    (h : l.get? k = some (t, ph)) (ph2 : CallPhase) :
    (l.set k (t, ph2)).map Prod.fst = l.map Prod.fst := by
  induction l generalizing k with
  | nil => cases h
  | cons x xs ih =>
    cases k with
    | zero =>
      have hx : some x = some (t, ph) := h
      injection hx with hx
      rw [hx]
      simp [List.set]
    | succ n =>
      have hh : xs.get? n = some (t, ph) := h
      simp [List.set, ih hh]

/-- For a unique-indexed identity, the insert of the fresh record conflicts
exactly when some record already matches the dedup query. -/
theorem insertConflicts_iff (c : Nat) (o : ViewOptions) (t : Int) (q : DedupQuery)
    (hq : buildQuery c o = some q)
    (hid : o.userId.isSome = true ∨ (o.clientId.isSome = true ∧ o.ipAddress.isSome = true))
    (store : List ViewRecord) :
    insertConflicts (newRecord c o t) store = true ↔ matchCount q store ≠ 0 := by
  constructor
  · intro h
    rw [insertConflicts, List.any_eq_true] at h
    obtain ⟨s, hs, hclash⟩ := h
    have hm := clash_matches c o t q hq s hclash
    have : 0 < matchCount q store := by
      rw [matchCount, List.countP_pos_iff]
      exact ⟨s, hs, by simp [hm]⟩
    omega
  · intro h
    have : 0 < matchCount q store := Nat.pos_of_ne_zero h
    rw [matchCount, List.countP_pos_iff] at this
    obtain ⟨s, hs, hm⟩ := this
    rw [insertConflicts, List.any_eq_true]
    exact ⟨s, hs, matches_clash c o t q hq hid s (by simpa using hm)⟩

/-- Generic invariant step for a transition that keeps the store and moves one
call to a phase with the same truth-count contribution, not a refresh, and
only to `done false` when a matching record exists. -/
theorem raceInv_store_same (q : DedupQuery) (times : List Int) (st : RaceState)
    (k : Nat) (t : Int) (ph ph2 : CallPhase)
    (hget : st.calls.get? k = some (t, ph))
    (hin : RaceInv q times st)
    (hsame : (ph2 == CallPhase.done true) = (ph == CallPhase.done true))
    (hrefresh : ∀ r, ph2 ≠ CallPhase.needRefresh r)
    (hfalse : ph2 = CallPhase.done false → matchCount q st.store ≠ 0) :
    RaceInv q times { store := st.store, calls := st.calls.set k (t, ph2) } := by
  obtain ⟨h1, h2, h3, h4, h5, h6⟩ := hin
  refine ⟨?_, h2, ?_, h4, ?_, ?_⟩
  · rw [map_fst_set hget]
    exact h1
  · rw [h3]
    show trueCount st.calls = trueCount (st.calls.set k (t, ph2))
    unfold trueCount
    exact (countP_set_congr _ hget (t, ph2) hsame).symm
  · intro i x hx r
    by_cases hik : k = i
    · subst hik
      have hlen : k < st.calls.length := by
        by_contra hc
        rw [List.get?_eq_none.mpr (le_of_not_lt hc)] at hget
        cases hget
      rw [List.get?_set_eq_of_lt _ hlen] at hx
      cases hx
      exact hrefresh r
    · rw [List.get?_set_ne _ _ hik] at hx
      exact h5 i x hx r
  · intro hex
    obtain ⟨i, x, hx, hxf⟩ := hex
    by_cases hik : k = i
    · subst hik
      have hlen : k < st.calls.length := by
        by_contra hc
        rw [List.get?_eq_none.mpr (le_of_not_lt hc)] at hget
        cases hget
      rw [List.get?_set_eq_of_lt _ hlen] at hx
      cases hx
      exact hfalse hxf
    · rw [List.get?_set_ne _ _ hik] at hx
      exact h6 ⟨i, x, hx, hxf⟩

/-- The fresh record is stamped with the call time. -/
theorem newRecord_viewedAt (c : Nat) (o : ViewOptions) (now : Int) :
    (newRecord c o now).viewedAt = now := by
  unfold newRecord
  cases o.userId <;> rfl

/-- One scheduler step preserves the race invariant. -/
theorem raceStep_inv (c : Nat) (o : ViewOptions) (q : DedupQuery) (times : List Int)
    (hq : buildQuery c o = some q)
    (hid : o.userId.isSome = true ∨ (o.clientId.isSome = true ∧ o.ipAddress.isSome = true))
    (htimes : ∀ t ∈ times, ∀ u ∈ times, t - u < windowMs)
    (st : RaceState) (k : Nat) (hin : RaceInv q times st) :
    RaceInv q times (raceStep c o st k) := by
  unfold raceStep
  split
  · exact hin
  · rename_i tp hget
    obtain ⟨t, ph⟩ := tp
    have ht : t ∈ times := by
      rw [← hin.1]
      exact List.mem_map_of_mem Prod.fst (List.get?_mem hget)
    cases ph with
    | done b =>
      show RaceInv q times
        { store := (stepCall c o t st.store (CallPhase.done b)).1,
          calls := st.calls.set k (t, (stepCall c o t st.store (CallPhase.done b)).2) }
      have hstep : stepCall c o t st.store (CallPhase.done b) =
          (st.store, CallPhase.done b) := rfl
      rw [hstep]
      show RaceInv q times { store := st.store, calls := st.calls.set k (t, CallPhase.done b) }
      rw [set_self_of_get? hget]
      exact hin
    | needRefresh r =>
      exact absurd rfl (hin.2.2.2.2.1 k (t, CallPhase.needRefresh r) hget r)
    | needInsert =>
      by_cases hconf : insertConflicts (newRecord c o t) st.store = true
      · have hstep : stepCall c o t st.store CallPhase.needInsert =
            (st.store, CallPhase.done false) := by
          simp [stepCall, hconf]
        show RaceInv q times
          { store := (stepCall c o t st.store CallPhase.needInsert).1,
            calls := st.calls.set k (t, (stepCall c o t st.store CallPhase.needInsert).2) }
        rw [hstep]
        show RaceInv q times
          { store := st.store, calls := st.calls.set k (t, CallPhase.done false) }
        apply raceInv_store_same q times st k t CallPhase.needInsert
          (CallPhase.done false) hget hin rfl (by intro r; simp)
        intro _
        exact ((insertConflicts_iff c o t q hq hid st.store).mp hconf)
      · have hstep : stepCall c o t st.store CallPhase.needInsert =
            (st.store ++ [newRecord c o t], CallPhase.done true) := by
          simp [stepCall, hconf]
        show RaceInv q times
          { store := (stepCall c o t st.store CallPhase.needInsert).1,
            calls := st.calls.set k (t, (stepCall c o t st.store CallPhase.needInsert).2) }
        rw [hstep]
        show RaceInv q times
          { store := st.store ++ [newRecord c o t],
            calls := st.calls.set k (t, CallPhase.done true) }
        have hmc : matchCount q st.store = 0 := by
          by_contra hne
          exact hconf ((insertConflicts_iff c o t q hq hid st.store).mpr hne)
        obtain ⟨h1, h2, h3, h4, h5, h6⟩ := hin
        have hmatch : matchesQuery q (newRecord c o t) = true := newRecord_matches c o t q hq
        have hmc2 : matchCount q (st.store ++ [newRecord c o t]) = 1 := by
          rw [matchCount, List.countP_append, ← matchCount, hmc]
          simp [hmatch]
        refine ⟨?_, ?_, ?_, ?_, ?_, ?_⟩
        · rw [map_fst_set hget]
          exact h1
        · intro r hr hm
          rcases List.mem_append.mp hr with h | h
          · exact h2 r h hm
          · simp at h
            rw [h, newRecord_viewedAt]
            exact ht
        · rw [hmc2]
          show (1 : Nat) = trueCount (st.calls.set k (t, CallPhase.done true))
          unfold trueCount
          rw [countP_set_incr _ hget (t, CallPhase.done true) (by simp) (by simp)]
          have h3' : 0 = st.calls.countP (fun p => p.2 == CallPhase.done true) := by
            rw [← hmc, h3]
            rfl
          omega
        · rw [hmc2]
        · intro i x hx r
          by_cases hik : k = i
          · subst hik
            have hlen : k < st.calls.length := by
              by_contra hc
              rw [List.get?_eq_none.mpr (le_of_not_lt hc)] at hget
              cases hget
            rw [List.get?_set_eq_of_lt _ hlen] at hx
            cases hx
            simp
          · rw [List.get?_set_ne _ _ hik] at hx
            exact h5 i x hx r
        · intro _
          rw [hmc2]
          omega
    | start =>
      show RaceInv q times
        { store := (stepCall c o t st.store CallPhase.start).1,
          calls := st.calls.set k (t, (stepCall c o t st.store CallPhase.start).2) }
      cases hfind : findOne q st.store with
      | none =>
        have hstep : stepCall c o t st.store CallPhase.start =
            (st.store, CallPhase.needInsert) := by
          simp [stepCall, hq, hfind]
        rw [hstep]
        show RaceInv q times
          { store := st.store, calls := st.calls.set k (t, CallPhase.needInsert) }
        apply raceInv_store_same q times st k t CallPhase.start
          CallPhase.needInsert hget hin rfl (by intro r; simp)
        intro h
        cases h
      | some r =>
        have hrm : matchesQuery q r = true := by
          have := List.find?_some hfind
          simpa [findOne] using this
        have hrmem : r ∈ st.store := List.mem_of_find?_eq_some hfind
        have hrt : r.viewedAt ∈ times := hin.2.1 r hrmem hrm
        have hlt : t - r.viewedAt < windowMs := htimes t ht r.viewedAt hrt
        have hstep : stepCall c o t st.store CallPhase.start =
            (st.store, CallPhase.done false) := by
          simp [stepCall, hq, hfind, not_le.mpr hlt]
        rw [hstep]
        show RaceInv q times
          { store := st.store, calls := st.calls.set k (t, CallPhase.done false) }
        apply raceInv_store_same q times st k t CallPhase.start
          (CallPhase.done false) hget hin rfl (by intro x; simp)
        intro _
        have : 0 < matchCount q st.store := by
          rw [matchCount, List.countP_pos_iff]
          exact ⟨r, hrmem, by simp [hrm]⟩
        omega

/-- The invariant holds at the start of a race against a store holding no
record for the identity. -/
theorem raceInv_init (q : DedupQuery) (init : List ViewRecord) (times : List Int)
    (hinit : ∀ r ∈ init, matchesQuery q r = false) :
    RaceInv q times
      { store := init, calls := times.map (fun t => (t, CallPhase.start)) } := by
  have hmc : matchCount q init = 0 := by
    rw [matchCount, List.countP_eq_zero]
    intro r hr
    simp [hinit r hr]
  refine ⟨?_, ?_, ?_, ?_, ?_, ?_⟩
  · rw [List.map_map]
    show List.map (fun t => t) times = times
    exact List.map_id times
  · intro r hr hm
    rw [hinit r hr] at hm
    cases hm
  · rw [hmc]
    show (0 : Nat) = trueCount (times.map (fun t => (t, CallPhase.start)))
    symm
    rw [trueCount, List.countP_eq_zero]
    intro p hp
    obtain ⟨t, _, rfl⟩ := List.mem_map.mp hp
    simp
  · rw [hmc]
    omega
  · intro i x hx r
    have := List.get?_mem hx
    obtain ⟨t, _, rfl⟩ := List.mem_map.mp this
    simp
  · intro hex
    obtain ⟨i, x, hx, hxf⟩ := hex
    have := List.get?_mem hx
    obtain ⟨t, _, rfl⟩ := List.mem_map.mp this
    cases hxf

/-- The race invariant is preserved by any scheduler. -/
theorem foldl_raceStep_inv (c : Nat) (o : ViewOptions) (q : DedupQuery) (times : List Int)
    (hq : buildQuery c o = some q)
    (hid : o.userId.isSome = true ∨ (o.clientId.isSome = true ∧ o.ipAddress.isSome = true))
    (htimes : ∀ t ∈ times, ∀ u ∈ times, t - u < windowMs)
    (sched : List Nat) (st : RaceState) (h : RaceInv q times st) :
    RaceInv q times (sched.foldl (raceStep c o) st) := by
  induction sched generalizing st with
  | nil => exact h
  | cons k ks ih =>
    rw [List.foldl_cons]
    exact ih (raceStep c o st k) (raceStep_inv c o q times hq hid htimes st k h)

/-- Every element is a finished call, so the true-count and false-count
partition the calls. -/
theorem countP_true_add_false (calls : List (Int × CallPhase))
    (h : ∀ p ∈ calls, ∃ b, p.2 = CallPhase.done b) :
    calls.countP (fun p => p.2 == CallPhase.done true) +
      calls.countP (fun p => p.2 == CallPhase.done false) = calls.length := by
  induction calls with
  | nil => rfl
  | cons x xs ih =>
    obtain ⟨b, hb⟩ := h x (List.mem_cons_self x xs)
    have hrest := ih (fun p hp => h p (List.mem_cons_of_mem x hp))
    cases b <;> simp only [List.countP_cons, hb, List.length_cons] <;> simp <;> omega

/-- C5 (amended): for an identity covered by a unique index — a user id, or a
client token together with an IP address — any interleaved execution of N
concurrent `recordView` calls for the same chapter, all within the dedup
window of each other and starting from a store with no record for that
identity, that runs every call to completion ends with exactly one call
returning true and the other N−1 returning false. (The IP-only fallback
identity is NOT covered: see the counterexample.) -/
theorem race_unique_index_exactly_one (c : Nat) (o : ViewOptions) (q : DedupQuery)
    (init : List ViewRecord) (times : List Int) (sched : List Nat)
    (hq : buildQuery c o = some q)
    (hid : o.userId.isSome = true ∨ (o.clientId.isSome = true ∧ o.ipAddress.isSome = true))
    (hinit : ∀ r ∈ init, matchesQuery q r = false)
    (htimes : ∀ t ∈ times, ∀ u ∈ times, t - u < windowMs)
    (hne : times ≠ [])
    (hdone : ∀ p ∈ (runRace c o init times sched).calls, ∃ b, p.2 = CallPhase.done b) :
    ((runRace c o init times sched).calls.filter
        (fun p => p.2 == CallPhase.done true)).length = 1 ∧
    ((runRace c o init times sched).calls.filter
        (fun p => p.2 == CallPhase.done false)).length = times.length - 1 := by
  have hinv : RaceInv q times (runRace c o init times sched) :=
    foldl_raceStep_inv c o q times hq hid htimes sched _ (raceInv_init q init times hinit)
  set F := runRace c o init times sched with hF
  obtain ⟨h1, h2, h3, h4, h5, h6⟩ := hinv
  have hlencalls : F.calls.length = times.length := by
    rw [← h1, List.length_map]
  have hlenpos : 0 < F.calls.length := by
    rw [hlencalls]
    cases times with
    | nil => exact absurd rfl hne
    | cons a l => simp
  have htc1 : trueCount F.calls = 1 := by
    have hle : trueCount F.calls ≤ 1 := by
      rw [← h3]
      exact h4
    rcases Nat.eq_zero_or_pos (trueCount F.calls) with h0 | hpos
    · exfalso
      have hmc0 : matchCount q F.store = 0 := by rw [h3, h0]
      cases hcs : F.calls with
      | nil =>
        rw [hcs] at hlenpos
        simp at hlenpos
      | cons a l =>
        have hamem : a ∈ F.calls := by
          rw [hcs]
          exact List.mem_cons_self a l
        obtain ⟨b, hb⟩ := hdone a hamem
        cases b with
        | true =>
          have : 0 < trueCount F.calls := by
            rw [trueCount, List.countP_pos_iff]
            exact ⟨a, hamem, by simp [hb]⟩
          omega
        | false =>
          refine h6 ⟨0, a, ?_, hb⟩ hmc0
          rw [hcs]
          rfl
    · omega
  have hsum := countP_true_add_false F.calls hdone
  have htc1' : F.calls.countP (fun p => p.2 == CallPhase.done true) = 1 := htc1
  constructor
  · rw [← List.countP_eq_length_filter]
    exact htc1'
  · rw [← List.countP_eq_length_filter]
    omega

/-- C5 witness: two concurrent first views by user 5, both lookups before
either insert, end with exactly one true and one false. -/
theorem race_unique_index_exactly_one_witness :
    ((runRace 1 (ViewOptions.mk (some 5) none none) [] [0, 1000] [0, 1, 0, 1]).calls.filter
        (fun p => p.2 == CallPhase.done true)).length = 1 ∧
    ((runRace 1 (ViewOptions.mk (some 5) none none) [] [0, 1000] [0, 1, 0, 1]).calls.filter
        (fun p => p.2 == CallPhase.done false)).length = 1 :=
  race_unique_index_exactly_one 1 (ViewOptions.mk (some 5) none none)
    (DedupQuery.mk 1 (some (some 5)) none none) [] [0, 1000] [0, 1, 0, 1]
    (by decide) (Or.inl (by decide)) (by decide) (by decide) (by decide) (by decide)

end ElfNovel
